import Mathlib

/-!
Verification development for the constrained-scheduling genetic-algorithm
solver (Rust sources: `src/solver/mod.rs` and `src/lib.rs`).

Modelling conventions:
* `chrono::NaiveDateTime` values travel as integer milliseconds since an
  epoch, so timestamps are modelled as `Int` (milliseconds); `ChronoDuration`
  likewise as `Int` milliseconds.
* `f64` weights, volumes and scores are modelled as `ℚ`.  Every property
  studied here concerns order relations and sums built by identical operation
  sequences, never rounding behaviour of individual `f64` operations.
* Rust `HashMap`s keyed by identifier strings are modelled as functions
  `String → Option β` built by insertion with overwrite, which is exactly the
  observable behaviour of `HashMap::insert` / `FromIterator`.
* Randomness (`rand::thread_rng`) is modelled by explicit oracle parameters:
  a pre-shuffled list where the code shuffles, and index-choice functions
  where the code calls `choose` / `gen_range`.
-/

namespace CSW

/-- A committed time interval `(start, end)` on a resource, in epoch ms.
Models the `(NaiveDateTime, NaiveDateTime)` pairs stored in
`driver_schedules` / `vehicle_schedules` (solver/mod.rs lines 62-63). -/
abbrev Interval := Int × Int

/-- `Break` (solver/mod.rs lines 10-15).  Rust fields `from`/`to` are Lean
keywords, hence `from_`/`to_`. -/
structure Break where
  from_ : Int
  to_ : Int
deriving DecidableEq, Repr

/-- `Driver` (solver/mod.rs lines 17-22). -/
structure Driver where
  id : String
  breaks : Option (List Break)
  preference : Option String
deriving DecidableEq, Repr

/-- `Vehicle` (solver/mod.rs lines 24-30). -/
structure Vehicle where
  id : String
  tags : Option (List String)
  max_weight : ℚ
  max_volume : Option ℚ
deriving DecidableEq, Repr

/-- `Order` (solver/mod.rs lines 32-44). -/
structure Order where
  id : String
  start_time : Int
  end_time : Int
  priority : Option ℕ
  tags : Option (List String)
  weight : ℚ
  volume : Option ℚ
deriving DecidableEq, Repr

/-- `Assignment` (solver/mod.rs lines 48-53). -/
structure Assignment where
  order_id : String
  driver_id : String
  vehicle_id : String
deriving DecidableEq, Repr

/-- `orders_overlap` (solver/mod.rs lines 138-140):
`order1.start_time < order2.end_time && order2.start_time < order1.end_time`. -/
def orders_overlap (o1 o2 : Order) : Bool :=
  decide (o1.start_time < o2.end_time) && decide (o2.start_time < o1.end_time)

/-- `insufficient_break` (solver/mod.rs lines 142-154). -/
def insufficient_break (o1 o2 : Order) (mandatory_break : Int) : Bool :=
  if o1.end_time ≤ o2.start_time then
    decide (o2.start_time - o1.end_time < mandatory_break)
  else if o2.end_time ≤ o1.start_time then
    decide (o1.start_time - o2.end_time < mandatory_break)
  else
    false

/-- The temporary `Order` built from a committed interval for comparison
(solver/mod.rs lines 179-187 and 208-216: blank id, no priority/tags/volume,
weight 0). -/
def intervalOrder (iv : Interval) : Order :=
  { id := "", start_time := iv.1, end_time := iv.2,
    priority := none, tags := none, weight := 0, volume := none }

/-- `is_driver_on_break` (solver/mod.rs lines 156-165). -/
def is_driver_on_break (driver : Driver) (time : Int) : Bool :=
  match driver.breaks with
  | some bs => bs.any fun b => decide (b.from_ ≤ time) && decide (time < b.to_)
  | none => false

/-- The committed-interval scan shared verbatim by `can_assign_driver`
(solver/mod.rs lines 177-197) and `can_assign_vehicle` (lines 207-226):
the order must neither overlap nor break-gap-violate any committed
interval.  The Rust loop returns `false` at the first offending interval;
`List.all` of the negations is the same predicate. -/
def schedule_ok (order : Order) (schedule : List Interval)
    (mandatory_break : Int) : Bool :=
  schedule.all fun iv =>
    !orders_overlap (intervalOrder iv) order &&
    !insufficient_break (intervalOrder iv) order mandatory_break

/-- `can_assign_driver` (solver/mod.rs lines 167-199). -/
def can_assign_driver (order : Order) (driver : Driver)
    (driver_schedule : List Interval) (mandatory_break : Int) : Bool :=
  if is_driver_on_break driver order.start_time then false
  else schedule_ok order driver_schedule mandatory_break

/-- The tag superset check at the end of `can_assign_vehicle`
(solver/mod.rs lines 243-252): if the order specifies tags, the vehicle must
have a tag set containing all of them (`HashSet::contains` on a set built
from the vehicle's tags is list membership). -/
def tags_ok (order : Order) (vehicle : Vehicle) : Bool :=
  match order.tags with
  | some order_tags =>
    match vehicle.tags with
    | some vehicle_tags => order_tags.all fun t => vehicle_tags.contains t
    | none => false
  | none => true

/-- `can_assign_vehicle` (solver/mod.rs lines 201-255): temporal scan over
committed intervals, then weight capacity (line 229), then volume capacity
(lines 232-240: a specified order volume with an absent vehicle maximum is a
rejection), then the tag check. -/
def can_assign_vehicle (order : Order) (vehicle : Vehicle)
    (vehicle_schedule : List Interval) (mandatory_break : Int) : Bool :=
  if !schedule_ok order vehicle_schedule mandatory_break then false
  else if decide (order.weight > vehicle.max_weight) then false
  else match order.volume, vehicle.max_volume with
    | some order_volume, some vehicle_volume =>
      if decide (order_volume > vehicle_volume) then false
      else tags_ok order vehicle
    | some _, none => false
    | none, _ => tags_ok order vehicle

/-- `can_assign` (solver/mod.rs lines 257-276). -/
def can_assign (order : Order) (driver : Driver) (vehicle : Vehicle)
    (driver_schedule vehicle_schedule : List Interval)
    (mandatory_break : Int) : Bool :=
  can_assign_driver order driver driver_schedule mandatory_break &&
  can_assign_vehicle order vehicle vehicle_schedule mandatory_break

/-- `ChronoDuration::minutes(30)` used as the mandatory break
(lib.rs line 49), in milliseconds. -/
def mandatory_break_ms : Int := 30 * 60 * 1000

/-- Characterisation of `schedule_ok` succeeding. -/
theorem schedule_ok_eq_true_iff (o : Order) (s : List Interval) (g : Int) :
    schedule_ok o s g = true ↔
      ∀ iv ∈ s, orders_overlap (intervalOrder iv) o = false ∧
        insufficient_break (intervalOrder iv) o g = false := by
  simp [schedule_ok, List.all_eq_true, Bool.not_eq_true']

/-- Characterisation of `schedule_ok` failing. -/
theorem schedule_ok_eq_false_iff (o : Order) (s : List Interval) (g : Int) :
    schedule_ok o s g = false ↔
      ∃ iv ∈ s, orders_overlap (intervalOrder iv) o = true ∨
        insufficient_break (intervalOrder iv) o g = true := by
  rw [Bool.eq_false_iff, Ne, schedule_ok_eq_true_iff]
  constructor
  · intro h
    by_contra hc
    push_neg at hc
    exact h fun iv hiv => by
      rcases hov : orders_overlap (intervalOrder iv) o with _ | _
      · rcases hib : insufficient_break (intervalOrder iv) o g with _ | _
        · exact ⟨rfl, rfl⟩
        · exact absurd hib (hc iv hiv).2
      · exact absurd hov (hc iv hiv).1
  · rintro ⟨iv, hiv, hor⟩ hall
    rcases hall iv hiv with ⟨h1, h2⟩
    rcases hor with h | h
    · rw [h1] at h; exact Bool.false_ne_true h
    · rw [h2] at h; exact Bool.false_ne_true h

/-- Characterisation of the tag check failing. -/
theorem tags_ok_eq_false_iff (order : Order) (vehicle : Vehicle) :
    tags_ok order vehicle = false ↔
      ∃ ts, order.tags = some ts ∧
        ¬ ∃ vts, vehicle.tags = some vts ∧ ∀ t ∈ ts, t ∈ vts := by
  unfold tags_ok
  rcases ht : order.tags with _ | ts <;> rcases hvt : vehicle.tags with _ | vts <;>
    simp [List.all_eq_true, List.contains, List.elem_iff]


/-- Claim C4, spec-side reading of the failure conditions, stated in the
claim's own terms: temporal violation against a committed interval, weight
over capacity, volume specified but not accommodated, or required tags not
covered by the vehicle's tag set (a vehicle without a tag set is not a
superset of any required set). -/
def vehicleRejects (order : Order) (vehicle : Vehicle)
    (vehicle_schedule : List Interval) (mandatory_break : Int) : Prop :=
  (∃ iv ∈ vehicle_schedule,
      orders_overlap (intervalOrder iv) order = true ∨
      insufficient_break (intervalOrder iv) order mandatory_break = true) ∨
  order.weight > vehicle.max_weight ∨
  (∃ ov, order.volume = some ov ∧
      (vehicle.max_volume = none ∨
        ∃ mv, vehicle.max_volume = some mv ∧ mv < ov)) ∨
  (∃ ts, order.tags = some ts ∧
      ¬ ∃ vts, vehicle.tags = some vts ∧ ∀ t ∈ ts, t ∈ vts)

/-- C4: the vehicle-placement predicate returns false precisely when at
least one of the four rejection conditions holds, and true otherwise: a
temporal (overlap or break-gap) violation against some committed interval of
the vehicle, an order weight strictly greater than the vehicle's maximum
weight, a specified order volume that the vehicle cannot accommodate (no
maximum volume, or a strictly smaller one), or required order tags of which
the vehicle's tag set is not a superset. -/
theorem can_assign_vehicle_false_iff (order : Order) (vehicle : Vehicle)
    (vehicle_schedule : List Interval) (mandatory_break : Int) :
    can_assign_vehicle order vehicle vehicle_schedule mandatory_break = false ↔
    vehicleRejects order vehicle vehicle_schedule mandatory_break := by
  have hfirstIff := schedule_ok_eq_false_iff order vehicle_schedule mandatory_break
  unfold can_assign_vehicle vehicleRejects
  rcases hs : schedule_ok order vehicle_schedule mandatory_break with _ | _
  · rw [hs] at hfirstIff
    simp only [Bool.not_false, if_true, true_iff]
    exact Or.inl (hfirstIff.mp rfl)
  · rw [hs] at hfirstIff
    have hfirst : ¬ ∃ iv ∈ vehicle_schedule,
        orders_overlap (intervalOrder iv) order = true ∨
        insufficient_break (intervalOrder iv) order mandatory_break = true := by
      intro h
      exact absurd (hfirstIff.mpr h) (by simp)
    by_cases hw : order.weight > vehicle.max_weight
    · simp [hw, hfirst]
    · rcases hv : order.volume with _ | ov <;>
        rcases hmv : vehicle.max_volume with _ | mv
      · simp [tags_ok_eq_false_iff, hfirst, hw, hv, hmv]
      · simp [tags_ok_eq_false_iff, hfirst, hw, hv, hmv]
      · simp [hfirst, hw, hv, hmv]
      · by_cases hvv : ov > mv
        · simp [hfirst, hw, hv, hmv, hvv]
        · have hle : ¬ (mv < ov) := hvv
          simp [tags_ok_eq_false_iff, hfirst, hw, hv, hmv, hle]


/-! ### Claim C1: the no-overlap / break-gap invariant on committed intervals -/

/-- A successful driver check implies the temporal scan succeeded
(`can_assign_driver`, solver/mod.rs lines 167-199). -/
theorem schedule_ok_of_can_assign_driver {o : Order} {d : Driver}
    {s : List Interval} {g : Int}
    (h : can_assign_driver o d s g = true) : schedule_ok o s g = true := by
  unfold can_assign_driver at h
  split at h
  · exact absurd h (by simp)
  · exact h

/-- A successful vehicle check implies the temporal scan succeeded
(`can_assign_vehicle`, solver/mod.rs lines 201-255). -/
theorem schedule_ok_of_can_assign_vehicle {o : Order} {v : Vehicle}
    {s : List Interval} {g : Int}
    (h : can_assign_vehicle o v s g = true) : schedule_ok o s g = true := by
  rcases hs : schedule_ok o s g with _ | _
  · unfold can_assign_vehicle at h
    rw [hs] at h
    exact absurd h (by simp)
  · rfl

/-- `orders_overlap` only reads the other order's times, so comparing
against the committed copy of an order's interval is comparing against the
order. -/
theorem orders_overlap_intervalOrder (iv : Interval) (o : Order) :
    orders_overlap (intervalOrder iv)
      (intervalOrder (o.start_time, o.end_time)) =
    orders_overlap (intervalOrder iv) o := rfl

/-- Same as `orders_overlap_intervalOrder` for `insufficient_break`. -/
theorem insufficient_break_intervalOrder (iv : Interval) (o : Order) (g : Int) :
    insufficient_break (intervalOrder iv)
      (intervalOrder (o.start_time, o.end_time)) g =
    insufficient_break (intervalOrder iv) o g := rfl

/-- The compatibility the no-overlap invariant asserts for two committed
intervals of one resource, earlier list element first: they do not overlap,
and they are not too close together for the mandatory break gap. -/
def compatible (gap : Int) (a b : Interval) : Prop :=
  orders_overlap (intervalOrder a) (intervalOrder b) = false ∧
  insufficient_break (intervalOrder a) (intervalOrder b) gap = false

/-- Committed-interval lists reachable, per resource, through the core's
operations.  Every call of `assign_order` (solver/mod.rs lines 86-114), which
pushes the order's interval onto the resource's list, is guarded at its call
sites — `initialize_random_state` (lines 294-321), the crossover inheritance
and repair passes (lines 357-413) and the mutation repair pass (lines
445-475) — by `can_assign_driver` / `can_assign_vehicle` (jointly
`can_assign`) evaluated against that same current list; the release step of
`mutate` (lines 436-441) only `retain`s (filters) the list. -/
inductive ReachableSched (gap : Int) : List Interval → Prop
  | empty : ReachableSched gap []
  | commit_driver (sched : List Interval) (order : Order) (driver : Driver) :
      ReachableSched gap sched →
      can_assign_driver order driver sched gap = true →
      ReachableSched gap (sched ++ [(order.start_time, order.end_time)])
  | commit_vehicle (sched : List Interval) (order : Order) (vehicle : Vehicle) :
      ReachableSched gap sched →
      can_assign_vehicle order vehicle sched gap = true →
      ReachableSched gap (sched ++ [(order.start_time, order.end_time)])
  | release (sched : List Interval) (p : Interval → Bool) :
      ReachableSched gap sched →
      ReachableSched gap (sched.filter p)

/-- Auxiliary step: appending a committed interval whose temporal scan
succeeded preserves pairwise compatibility. -/
theorem pairwise_compatible_append {gap : Int} {sched : List Interval}
    {o : Order} (hp : List.Pairwise (compatible gap) sched)
    (hok : schedule_ok o sched gap = true) :
    List.Pairwise (compatible gap) (sched ++ [(o.start_time, o.end_time)]) := by
  rw [List.pairwise_append]
  refine ⟨hp, List.pairwise_singleton _ _, ?_⟩
  intro a ha b hb
  rw [List.mem_singleton] at hb
  subst hb
  rw [schedule_ok_eq_true_iff] at hok
  rcases hok a ha with ⟨h1, h2⟩
  exact ⟨by rw [orders_overlap_intervalOrder]; exact h1,
    by rw [insufficient_break_intervalOrder]; exact h2⟩

/-- C1: for every resource, after any sequence of commits performed through
the core's operations (population initialization, crossover inheritance, and
the repair passes of crossover and mutation, all guarded by `can_assign`;
releases only remove intervals), the committed-interval list is pairwise
non-overlapping and every pair respects the mandatory break gap. -/
theorem committed_intervals_invariant (gap : Int) (sched : List Interval)
    (h : ReachableSched gap sched) :
    List.Pairwise (compatible gap) sched := by
  induction h with
  | empty => exact List.Pairwise.nil
  | commit_driver sched order driver _ hca ih =>
      exact pairwise_compatible_append ih (schedule_ok_of_can_assign_driver hca)
  | commit_vehicle sched order vehicle _ hca ih =>
      exact pairwise_compatible_append ih (schedule_ok_of_can_assign_vehicle hca)
  | release sched p _ ih =>
      exact List.Pairwise.sublist (List.filter_sublist sched) ih

/-- Witness for C1: a concrete two-commit run (a one-hour order at epoch 0,
then an order starting exactly 30 minutes after it ends) is reachable with
the 30-minute mandatory break, and the invariant holds on the resulting
committed list. -/
theorem committed_intervals_invariant_witness :
    List.Pairwise (compatible mandatory_break_ms)
      [((0 : Int), (3600000 : Int)), ((5400000 : Int), (7200000 : Int))] := by
  have h0 : ReachableSched mandatory_break_ms [] := ReachableSched.empty
  have h1 := ReachableSched.commit_driver []
    { id := "o1", start_time := 0, end_time := 3600000, priority := none,
      tags := none, weight := 1, volume := none }
    { id := "d1", breaks := none, preference := none } h0 (by decide)
  have h2 := ReachableSched.commit_driver _
    { id := "o2", start_time := 5400000, end_time := 7200000, priority := none,
      tags := none, weight := 1, volume := none }
    { id := "d1", breaks := none, preference := none } h1 (by decide)
  exact committed_intervals_invariant mandatory_break_ms _ h2

/-! ### Claim C2: the cached score always equals a from-scratch recomputation -/

/-- `PREFERENCE_BONUS` (solver/mod.rs lines 107 and 125). -/
def PREFERENCE_BONUS : ℚ := 1/10

/-- The score contribution of one commit, as computed inside `assign_order`
(solver/mod.rs lines 106-112): the order's priority from the map (default 1)
plus the preference bonus iff the driver's preferred vehicle is the assigned
vehicle. -/
def assignment_weight (priority_map : String → Option ℕ) (order : Order)
    (driver : Driver) (vehicle : Vehicle) : ℚ :=
  let weight : ℚ := ((priority_map order.id).getD 1 : ℕ)
  match driver.preference with
  | some preferred_vehicle =>
      if vehicle.id = preferred_vehicle then weight + PREFERENCE_BONUS
      else weight
  | none => weight

/-- The score-relevant projection of `SolverState` (solver/mod.rs lines
60-66): the assignment list and the cached score. -/
structure ScoreState where
  assignments : List Assignment
  score : ℚ
deriving DecidableEq, Repr

/-- The assignment-list and score effect of `assign_order` (solver/mod.rs
lines 86-114): append the `Assignment` and increment the cached score. -/
def assign_order_score (priority_map : String → Option ℕ) (st : ScoreState)
    (order : Order) (driver : Driver) (vehicle : Vehicle) : ScoreState :=
  { assignments := st.assignments ++
      [{ order_id := order.id, driver_id := driver.id, vehicle_id := vehicle.id }],
    score := st.score + assignment_weight priority_map order driver vehicle }

/-- The per-assignment term of `calculate_score` (solver/mod.rs lines
118-131): look the driver up by identifier (first match; the Rust `unwrap`
on a missing driver is modelled by `Option`), then priority plus bonus. -/
def score_of_assignment (priority_map : String → Option ℕ)
    (drivers : List Driver) (a : Assignment) : Option ℚ :=
  (drivers.find? fun d => decide (d.id = a.driver_id)).map fun driver =>
    let priority : ℚ := ((priority_map a.order_id).getD 1 : ℕ)
    match driver.preference with
    | some preferred_vehicle =>
        if a.vehicle_id = preferred_vehicle then priority + PREFERENCE_BONUS
        else priority
    | none => priority

/-- `calculate_score` (solver/mod.rs lines 116-134): left fold of the
per-assignment weights starting from 0; `none` models the `unwrap` panic on
an assignment naming an unknown driver. -/
def calculate_score (priority_map : String → Option ℕ) (drivers : List Driver)
    (assignments : List Assignment) : Option ℚ :=
  assignments.foldl
    (fun acc a => acc.bind fun score =>
      (score_of_assignment priority_map drivers a).map fun w => score + w)
    (some 0)

/-- In a driver collection with pairwise-distinct identifiers, looking a
member driver up by its identifier finds exactly that driver. -/
theorem find_driver_by_id {drivers : List Driver} {d : Driver}
    (hnd : (drivers.map Driver.id).Nodup) (hd : d ∈ drivers) :
    (drivers.find? fun x => decide (x.id = d.id)) = some d := by
  induction drivers with
  | nil => cases hd
  | cons x xs ih =>
      rw [List.map_cons, List.nodup_cons] at hnd
      rcases List.mem_cons.mp hd with rfl | hmem
      · simp
      · have hne : ¬ (x.id = d.id) := fun he =>
          hnd.1 (he ▸ List.mem_map_of_mem Driver.id hmem)
        rw [List.find?_cons_of_neg _ (by simpa using hne)]
        exact ih hnd.2 hmem

/-- Unfolding `calculate_score` over an appended assignment. -/
theorem calculate_score_append (priority_map : String → Option ℕ)
    (drivers : List Driver) (l : List Assignment) (a : Assignment) :
    calculate_score priority_map drivers (l ++ [a]) =
      (calculate_score priority_map drivers l).bind fun score =>
        (score_of_assignment priority_map drivers a).map fun w => score + w := by
  unfold calculate_score
  rw [List.foldl_append]
  rfl

/-- `Candidate` states (assignment list plus cached score) reachable through
the core's operations: the empty state (`SolverState::new`, solver/mod.rs
lines 69-84), commits of a driver from the input collection (`assign_order`,
lines 86-114, called from initialization, crossover and mutation), and the
mutation release step followed by the from-scratch recomputation the
operations end with (lines 429-442 and 478, lib.rs line 145). -/
inductive ScoreReachable (priority_map : String → Option ℕ)
    (drivers : List Driver) : ScoreState → Prop
  | empty : ScoreReachable priority_map drivers { assignments := [], score := 0 }
  | commit (st : ScoreState) (order : Order) (driver : Driver)
      (vehicle : Vehicle) :
      ScoreReachable priority_map drivers st →
      driver ∈ drivers →
      ScoreReachable priority_map drivers
        (assign_order_score priority_map st order driver vehicle)
  | release_recompute (st : ScoreState) (idx : ℕ) (s : ℚ) :
      ScoreReachable priority_map drivers st →
      calculate_score priority_map drivers (st.assignments.eraseIdx idx) =
        some s →
      ScoreReachable priority_map drivers
        { assignments := st.assignments.eraseIdx idx, score := s }

/-- C2: for every reachable `Candidate` state, the cached score equals the
from-scratch recomputation — the sum over the assignment list of the order's
priority (default 1) plus the 0.1 preference bonus exactly when the driver's
preferred vehicle is the assigned vehicle; in particular the incremental
update of `assign_order` and `calculate_score` agree.  Driver identifiers
are assumed pairwise distinct (they key `driver_schedules` and the
by-identifier lookup of `calculate_score`). -/
theorem score_cache_consistent (priority_map : String → Option ℕ)
    (drivers : List Driver) (st : ScoreState)
    (hnd : (drivers.map Driver.id).Nodup)
    (h : ScoreReachable priority_map drivers st) :
    calculate_score priority_map drivers st.assignments = some st.score := by
  induction h with
  | empty => rfl
  | commit st order driver vehicle _ hmem ih =>
      rw [assign_order_score, calculate_score_append, ih]
      have hfind := find_driver_by_id hnd hmem
      simp only [Option.some_bind, score_of_assignment, hfind, Option.map_some]
      rfl
  | release_recompute st idx s _ hrec _ => exact hrec

/-- Witness for C2: one commit of a priority-3 order by a driver whose
preferred vehicle is the assigned one; both the incremental score and the
recomputation give 3.1. -/
theorem score_cache_consistent_witness :
    calculate_score (fun id => if id = "o1" then some 3 else none)
      [{ id := "d1", breaks := none, preference := some "v1" }]
      [{ order_id := "o1", driver_id := "d1", vehicle_id := "v1" }] =
      some (31/10) := by
  have h := score_cache_consistent
    (fun id => if id = "o1" then some 3 else none)
    [{ id := "d1", breaks := none, preference := some "v1" }]
    _ (by simp)
    (ScoreReachable.commit _
      { id := "o1", start_time := 0, end_time := 3600000, priority := some 3,
        tags := none, weight := 1, volume := none }
      { id := "d1", breaks := none, preference := some "v1" }
      { id := "v1", tags := none, max_weight := 100, max_volume := none }
      ScoreReachable.empty (by simp))
  rw [show (31/10 : ℚ) = 0 + (3 + 1/10) by norm_num]
  simpa [assign_order_score, assignment_weight, PREFERENCE_BONUS] using h

/-! ### Claim C3: the release step of mutation removes intervals by
interval-value equality -/

/-- The release step of `mutate` applied to one resource's committed list
(solver/mod.rs lines 434-441): look the released assignment's order up in
the input order collection by identifier (first match; the `unwrap` on a
missing order is modelled by `Option`), then `retain` exactly those
intervals whose `(start, end)` pair is not value-equal to that order's
window — i.e. remove every value-equal interval. -/
def release_retain (orders : List Order) (released : Assignment)
    (sched : List Interval) : Option (List Interval) :=
  (orders.find? fun o => decide (o.id = released.order_id)).map fun o =>
    sched.filter fun iv =>
      !(decide (iv.1 = o.start_time) && decide (iv.2 = o.end_time))

/-- C3 (the code evaluated at the failing input): orders "o1" and "o2" are
distinct but share the window [0, 3600000); a resource holds a committed
interval for each.  Releasing the assignment of "o1" removes BOTH
value-equal intervals — the result is `[]`, not the `[(0, 3600000)]` that a
stable-reference (per-order) removal, as the claim and §4.3/§9 of the spec
require, would leave for "o2". -/
theorem release_retain_removes_other_orders_interval :
    release_retain
      [{ id := "o1", start_time := 0, end_time := 3600000, priority := none,
         tags := none, weight := 1, volume := none },
       { id := "o2", start_time := 0, end_time := 3600000, priority := none,
         tags := none, weight := 1, volume := none }]
      { order_id := "o1", driver_id := "d1", vehicle_id := "v1" }
      [((0 : Int), (3600000 : Int)), ((0 : Int), (3600000 : Int))] =
      some [] := by
  decide

/-! ### Claim C9: duplicate order identifiers and the priority map -/

/-- `order_priority_map` (lib.rs lines 54-57): the `(id, priority or 1)`
pairs collected into a `HashMap`; a later pair with the same key overwrites
an earlier one. -/
def order_priority_map (orders : List Order) : String → Option ℕ :=
  orders.foldl
    (fun m o => fun k => if k = o.id then some (o.priority.getD 1) else m k)
    (fun _ => none)

/-- Lookup in the folded map is lookup of the LAST matching entry. -/
theorem priority_foldl_lookup (orders : List Order) (m : String → Option ℕ)
    (k : String) :
    orders.foldl
      (fun m o => fun k' => if k' = o.id then some (o.priority.getD 1) else m k')
      m k =
      match orders.reverse.find? (fun o => decide (o.id = k)) with
      | some o => some (o.priority.getD 1)
      | none => m k := by
  induction orders generalizing m with
  | nil => rfl
  | cons o rest ih =>
      rw [List.foldl_cons, ih, List.reverse_cons, List.find?_append]
      cases hr : rest.reverse.find? (fun o => decide (o.id = k)) with
      | some o' => rfl
      | none =>
          simp only [Option.none_or]
          by_cases hk : o.id = k
          · rw [List.find?_cons_of_pos _ (by simpa using hk)]
            simp [hk.symm]
          · rw [List.find?_cons_of_neg _ (by simpa using hk)]
            have hk2 : ¬ k = o.id := fun h => hk h.symm
            simp [hk2]

/-- C9: when the input order collection contains entries sharing one
identifier, the priority map binds that identifier to the priority of the
last such entry (default 1 when absent), and the `.getD 1` read that both
`assign_order` and `calculate_score` perform for any assignment of that
identifier yields that single value. -/
theorem order_priority_map_last_wins (orders : List Order) (k : String)
    (o : Order)
    (hlast : orders.reverse.find? (fun x => decide (x.id = k)) = some o) :
    order_priority_map orders k = some (o.priority.getD 1) ∧
    ∀ a : Assignment, a.order_id = k →
      (order_priority_map orders a.order_id).getD 1 = o.priority.getD 1 := by
  have h := priority_foldl_lookup orders (fun _ => none) k
  rw [hlast] at h
  rw [order_priority_map]
  refine ⟨h, ?_⟩
  intro a ha
  rw [ha, h]
  rfl

/-- Witness for C9: two orders share id "x"; the later has no priority, so
the map binds "x" to the default 1 (not the earlier entry's 3), and an
assignment of "x" is scored from that value. -/
theorem order_priority_map_last_wins_witness :
    order_priority_map
      [{ id := "x", start_time := 0, end_time := 10, priority := some 3,
         tags := none, weight := 1, volume := none },
       { id := "x", start_time := 20, end_time := 30, priority := none,
         tags := none, weight := 1, volume := none }] "x" = some 1 ∧
    ({ order_id := "x", driver_id := "d1", vehicle_id := "v1" } :
        Assignment).order_id = "x" :=
  have h := order_priority_map_last_wins
    [{ id := "x", start_time := 0, end_time := 10, priority := some 3,
       tags := none, weight := 1, volume := none },
     { id := "x", start_time := 20, end_time := 30, priority := none,
       tags := none, weight := 1, volume := none }] "x"
    { id := "x", start_time := 20, end_time := 30, priority := none,
      tags := none, weight := 1, volume := none }
    (by decide)
  ⟨h.1, rfl⟩

/-! ### Claim C10: tournament selection -/

/-- `select_parent` (solver/mod.rs lines 331-343): tournament of size 3.
`population.choose(&mut rng)` draws a uniformly random element — modelled by
the oracle indices `i1 i2 i3` — and returns `None` exactly on an empty
population; the Rust `unwrap`s are modelled by `Option`.  A contender
replaces the current best only on a strictly greater score. -/
def select_parent (population : List ScoreState) (i1 i2 i3 : ℕ) :
    Option ScoreState :=
  match population[i1]?, population[i2]?, population[i3]? with
  | some best, some c1, some c2 =>
      let best1 := if c1.score > best.score then c1 else best
      let best2 := if c2.score > best1.score then c2 else best1
      some best2
  | _, _, _ => none

/-- C10: on a non-empty population (all three uniform draws are in range,
as `choose` guarantees), `select_parent` cannot fail: it returns a member
of the population whose score is the maximum score among the three sampled
contenders.  (Within the evolution driver the population always holds
`population_size = 50` candidates — see the size invariant of the
termination theorem — so the `None`/panic branch is unreachable there.) -/
theorem select_parent_tournament (population : List ScoreState) (i1 i2 i3 : ℕ)
    (h1 : i1 < population.length) (h2 : i2 < population.length)
    (h3 : i3 < population.length) :
    ∃ c, select_parent population i1 i2 i3 = some c ∧ c ∈ population ∧
      c.score = max (max population[i1].score population[i2].score)
        population[i3].score := by
  unfold select_parent
  rw [List.getElem?_eq_getElem h1, List.getElem?_eq_getElem h2,
    List.getElem?_eq_getElem h3]
  dsimp only
  refine ⟨_, rfl, ?_, ?_⟩
  · split_ifs <;> exact List.getElem_mem _
  · split_ifs with ha hb hb <;> rw [max_def, max_def] <;> split_ifs <;> linarith

/-- Witness for C10: a two-candidate population with scores 1 and 5,
tournament indices (0, 1, 0): the winner scores `max (max 1 5) 1 = 5`. -/
theorem select_parent_tournament_witness :
    ∃ c, select_parent
        [{ assignments := [], score := (1 : ℚ) },
         { assignments := [], score := (5 : ℚ) }] 0 1 0 = some c ∧
      c ∈ [({ assignments := [], score := (1 : ℚ) } : ScoreState),
           { assignments := [], score := (5 : ℚ) }] ∧
      c.score = max (max 1 5) 1 := by
  have h := select_parent_tournament
    [{ assignments := [], score := (1 : ℚ) },
     { assignments := [], score := (5 : ℚ) }] 0 1 0
    (by decide) (by decide) (by decide)
  simpa using h

/-! ### Claim C6: elitism makes the best score monotone across generations -/

/-- The score-descending order used by the per-generation sort (lib.rs
lines 83 and 154): `b.score.partial_cmp(&a.score)`.  Scores are sums of
priorities and preference bonuses, never NaN, so `partial_cmp` is a total
comparison here. -/
def scoreGe (a b : ScoreState) : Prop := b.score ≤ a.score

instance : DecidableRel scoreGe := fun a b =>
  inferInstanceAs (Decidable (b.score ≤ a.score))

instance : IsTotal ScoreState scoreGe := ⟨fun a b => le_total b.score a.score⟩

instance : IsTrans ScoreState scoreGe := ⟨fun _ _ _ h1 h2 => le_trans h2 h1⟩

/-- `population.sort_by(|a, b| b.score.partial_cmp(&a.score).unwrap_or(Equal))`
(lib.rs line 83): a sort by score descending.  The spec fixes only "top-k by
score", not the order among equal scores, so any correct sort models it. -/
def sortDesc (population : List ScoreState) : List ScoreState :=
  List.insertionSort scoreGe population

/-- `population_size` (lib.rs line 47). -/
def population_size : ℕ := 50

/-- `generations`, the generation cap (lib.rs line 46). -/
def generations : ℕ := 1000

/-- `max_generations_without_improvement`, the stagnation cap (lib.rs
line 78). -/
def max_generations_without_improvement : ℕ := 50

/-- `elite_count = (population_size as f64 * 0.1).ceil() as usize` (lib.rs
line 113).  In `f64`, `50.0 * 0.1` rounds to exactly `5.0` (the error of the
exact product against 5 is below half an ulp), so `ceil` gives 5. -/
def elite_count : ℕ := 5

/-- The refill of one generation (lib.rs lines 112-147): the first
`elite_count` candidates of the sorted population survive unchanged, then
children are pushed until the population is back to `population_size`.
Each child is produced by selection, crossover and probabilistic mutation;
every claim proved about the driver holds for arbitrary children, so the
child of each slot is an oracle parameter. -/
def nextPopulation (sorted : List ScoreState) (child : ℕ → ScoreState) :
    List ScoreState :=
  sorted.take elite_count ++
    (List.range (population_size - (sorted.take elite_count).length)).map child

/-- C6: for consecutive generations, the maximum score present in the next
population — built by copying the top `elite_count = ceil(50 × 0.1)`
candidates of the score-descending-sorted population unchanged and
appending arbitrary children — is at least the maximum score of the current
population. -/
theorem elitism_monotone (population : List ScoreState)
    (child : ℕ → ScoreState) (h : population ≠ []) :
    (population.map ScoreState.score).maximum ≤
      ((nextPopulation (sortDesc population) child).map
        ScoreState.score).maximum := by
  apply List.maximum_le_of_forall_le
  intro q hq
  rw [List.mem_map] at hq
  obtain ⟨c, hc, rfl⟩ := hq
  have hperm : (sortDesc population).Perm population :=
    List.perm_insertionSort scoreGe population
  have hne : sortDesc population ≠ [] := by
    intro h0
    rw [h0] at hperm
    exact h (List.Perm.eq_nil hperm.symm)
  obtain ⟨hd, tl, hcons⟩ := List.exists_cons_of_ne_nil hne
  have hcmem : c ∈ sortDesc population := (hperm.mem_iff).mpr hc
  have hsorted0 : List.Sorted scoreGe (sortDesc population) :=
    List.sorted_insertionSort scoreGe population
  have hle : c.score ≤ hd.score := by
    rw [hcons] at hcmem hsorted0
    rcases List.mem_cons.mp hcmem with rfl | hmem
    · exact le_refl _
    · exact List.rel_of_sorted_cons hsorted0 c hmem
  have hhdmem : hd ∈ nextPopulation (sortDesc population) child := by
    apply List.mem_append_left
    rw [hcons]
    have he : elite_count = 4 + 1 := rfl
    rw [he, List.take_succ_cons]
    exact List.mem_cons_self _ _
  calc ((c.score : ℚ) : WithBot ℚ) ≤ (hd.score : WithBot ℚ) := by
        exact_mod_cast hle
    _ ≤ ((nextPopulation (sortDesc population) child).map
          ScoreState.score).maximum :=
        List.le_maximum_of_mem' (List.mem_map_of_mem ScoreState.score hhdmem)

/-- Witness for C6: a population with scores 1 and 5 and constant-zero
children. -/
theorem elitism_monotone_witness :
    (([{ assignments := [], score := (1 : ℚ) },
       { assignments := [], score := (5 : ℚ) }] : List ScoreState).map
      ScoreState.score).maximum ≤
      ((nextPopulation
          (sortDesc [{ assignments := [], score := (1 : ℚ) },
            { assignments := [], score := (5 : ℚ) }])
          fun _ => { assignments := [], score := 0 }).map
        ScoreState.score).maximum :=
  elitism_monotone _ _ (List.cons_ne_nil _ _)

/-! ### Claims C5 and C8: the evolution driver loop -/

/-- Two-decimal rendering of a score, as `format!("{:.2}", score)` displays
the best score (lib.rs lines 87-91).  Scores here are exact rationals;
rounding to the nearest hundredth models the display rounding. -/
def fmt2 (q : ℚ) : String :=
  let c : ℤ := round (q * 100)
  let sign := if c < 0 then "-" else ""
  let n := c.natAbs
  sign ++ toString (n / 100) ++ "." ++
    (if n % 100 < 10 then "0" else "") ++ toString (n % 100)

/-- The per-generation progress string
`format!("Generation {}: Best Score {:.2}", generation + 1,
current_best_score)` (lib.rs lines 87-91). -/
def progressMsg (n : ℕ) (score : ℚ) : String :=
  "Generation " ++ toString n ++ ": Best Score " ++ fmt2 score

/-- The stagnation termination string `format!("No improvement over {}
generations, terminating.", max_generations_without_improvement)` (lib.rs
lines 104-107). -/
def stagnationMsg : String :=
  "No improvement over " ++ toString max_generations_without_improvement ++
    " generations, terminating."

/-- Observable outcome of a run of the generational loop: the final
population, the final value of the generation counter, the strings delivered
to the progress sink in order, the per-entered-generation best scores, the
population sizes recorded after each refill, the stagnation-counter values
after step 3 of each entered generation, and whether the stagnation cap
triggered termination. -/
structure GenResult where
  pop : List ScoreState
  gens : ℕ
  msgs : List String
  bests : List ℚ
  sizes : List ℕ
  stags : List ℕ
  stagStop : Bool
deriving Repr

/-- The `while` loop of `get_schedule_recommendation` (lib.rs lines 81-151),
one iteration per fuel unit (`fuel = generations - generation` makes the
`generation < generations` condition structural).  `timeUp g` is the oracle
for `(Date::now() - start_time) >= max_duration` sampled at the top of
iteration `g`; `child g k` is the selection → crossover → probabilistic
mutation product filling slot `k` of generation `g` (the claims proved about
the driver hold for arbitrary children); `sinkOk g` is the outcome of the
`js_update_function.call1` delivery, bound to `_` and discarded exactly as
in the source (line 92). -/
def evolveAux (timeUp : ℕ → Bool) (child : ℕ → ℕ → ScoreState)
    (sinkOk : ℕ → Bool) :
    ℕ → ℕ → List ScoreState → ℚ → ℕ → GenResult
  | 0, gen, pop, _, _ =>
    { pop := pop, gens := gen, msgs := [], bests := [], sizes := [],
      stags := [], stagStop := false }
  | fuel + 1, gen, pop, best_score, stag =>
    if timeUp gen then
      { pop := pop, gens := gen, msgs := [], bests := [], sizes := [],
        stags := [], stagStop := false }
    else
      let sorted := sortDesc pop
      let current_best := ((sorted.head?).map ScoreState.score).getD 0
      let msg := progressMsg (gen + 1) current_best
      let _delivered := sinkOk gen
      let best2 := if current_best > best_score then current_best
        else best_score
      let stag2 := if current_best > best_score then 0 else stag + 1
      if stag2 ≥ max_generations_without_improvement then
        { pop := pop, gens := gen, msgs := [msg, stagnationMsg],
          bests := [current_best], sizes := [], stags := [stag2],
          stagStop := true }
      else
        let newPop := nextPopulation sorted (child gen)
        let r := evolveAux timeUp child sinkOk fuel (gen + 1) newPop best2 stag2
        { pop := r.pop, gens := r.gens, msgs := msg :: r.msgs,
          bests := current_best :: r.bests, sizes := newPop.length :: r.sizes,
          stags := stag2 :: r.stags, stagStop := r.stagStop }

/-- The full driver run (lib.rs lines 72-151): the initial best score is the
unsorted population's first element's score (line 76), the stagnation
counter starts at 0, the generation counter at 0, and at most `generations`
iterations can run. -/
def evolve (timeUp : ℕ → Bool) (child : ℕ → ℕ → ScoreState)
    (sinkOk : ℕ → Bool) (population : List ScoreState) : GenResult :=
  evolveAux timeUp child sinkOk generations 0 population
    (((population.head?).map ScoreState.score).getD 0) 0

/-- A refill always restores the population to exactly `population_size`. -/
theorem nextPopulation_length (sorted : List ScoreState)
    (child : ℕ → ScoreState) (h : population_size ≤ sorted.length) :
    (nextPopulation sorted child).length = population_size := by
  unfold nextPopulation
  rw [List.length_append, List.length_map, List.length_range, List.length_take]
  have h5 : elite_count ≤ sorted.length :=
    le_trans (by decide : elite_count ≤ population_size) h
  rw [Nat.min_eq_left h5]
  decide

/-- Sorting preserves the population size. -/
theorem sortDesc_length (population : List ScoreState) :
    (sortDesc population).length = population.length :=
  (List.perm_insertionSort scoreGe population).length_eq

/-- Loop invariants of `evolveAux`, by induction on the remaining fuel:
the generation counter grows but by at most the fuel; the population size
is `population_size` at exit and after every refill; no iteration starts
with the time budget already expired; the stagnation counter never exceeds
its cap and reaches it exactly when the loop stops for stagnation. -/
theorem evolveAux_invariants (timeUp : ℕ → Bool) (child : ℕ → ℕ → ScoreState)
    (sinkOk : ℕ → Bool) (fuel gen : ℕ) (pop : List ScoreState) (best : ℚ)
    (stag : ℕ) (hsize : pop.length = population_size)
    (hstag : stag < max_generations_without_improvement) :
    gen ≤ (evolveAux timeUp child sinkOk fuel gen pop best stag).gens ∧
    (evolveAux timeUp child sinkOk fuel gen pop best stag).gens ≤ gen + fuel ∧
    (evolveAux timeUp child sinkOk fuel gen pop best stag).pop.length =
      population_size ∧
    (∀ s ∈ (evolveAux timeUp child sinkOk fuel gen pop best stag).sizes,
      s = population_size) ∧
    (∀ g, g < (evolveAux timeUp child sinkOk fuel gen pop best stag).gens →
      gen ≤ g → timeUp g = false) ∧
    (∀ s ∈ (evolveAux timeUp child sinkOk fuel gen pop best stag).stags,
      s ≤ max_generations_without_improvement) ∧
    (max_generations_without_improvement ∈
        (evolveAux timeUp child sinkOk fuel gen pop best stag).stags ↔
      (evolveAux timeUp child sinkOk fuel gen pop best stag).stagStop = true) := by
  induction fuel generalizing gen pop best stag with
  | zero =>
      rw [evolveAux]
      dsimp only
      refine ⟨le_refl _, by omega, hsize, by simp, ?_, by simp, by simp⟩
      intro g h1 h2
      omega
  | succ fuel ih =>
      rw [evolveAux]
      by_cases ht : timeUp gen = true
      · rw [if_pos ht]
        dsimp only
        refine ⟨le_refl _, by omega, hsize, by simp, ?_, by simp, by simp⟩
        intro g h1 h2
        omega
      · rw [if_neg ht]
        dsimp only
        set cur := ((sortDesc pop).head?.map ScoreState.score).getD 0 with hcur
        have hnew : (nextPopulation (sortDesc pop) (child gen)).length =
            population_size :=
          nextPopulation_length _ _ (le_of_eq (by rw [sortDesc_length, hsize]))
        by_cases himp : cur > best
        · rw [if_pos himp, if_pos himp,
            if_neg (by decide : ¬ ((0:ℕ) ≥ max_generations_without_improvement))]
          dsimp only
          obtain ⟨ih1, ih2, ih3, ih4, ih5, ih6, ih7⟩ :=
            ih (gen + 1) _ cur 0 hnew (by decide)
          refine ⟨by omega, by omega, ih3, ?_, ?_, ?_, ?_⟩
          · intro s hs
            rcases List.mem_cons.mp hs with rfl | hs2
            · exact hnew
            · exact ih4 s hs2
          · intro g hg hgen
            rcases Nat.eq_or_lt_of_le hgen with rfl | hlt
            · exact Bool.eq_false_iff.mpr ht
            · exact ih5 g hg hlt
          · intro s hs
            rcases List.mem_cons.mp hs with rfl | hs2
            · exact le_of_lt (by decide)
            · exact ih6 s hs2
          · rw [List.mem_cons]
            constructor
            · rintro (h50 | hmem)
              · exact absurd h50.symm (by decide)
              · exact ih7.mp hmem
            · intro hss
              exact Or.inr (ih7.mpr hss)
        · rw [if_neg himp, if_neg himp]
          by_cases hs2 : stag + 1 ≥ max_generations_without_improvement
          · rw [if_pos hs2]
            dsimp only
            have hstag50 : stag + 1 = max_generations_without_improvement := by
              omega
            refine ⟨le_refl _, by omega, hsize, by simp, ?_, ?_, ?_⟩
            · intro g h1 h2
              omega
            · intro s hs
              simp only [List.mem_singleton] at hs
              omega
            · simp [hstag50]
          · rw [if_neg hs2]
            dsimp only
            obtain ⟨ih1, ih2, ih3, ih4, ih5, ih6, ih7⟩ :=
              ih (gen + 1) _ best (stag + 1) hnew (by omega)
            refine ⟨by omega, by omega, ih3, ?_, ?_, ?_, ?_⟩
            · intro s hs
              rcases List.mem_cons.mp hs with rfl | hss
              · exact hnew
              · exact ih4 s hss
            · intro g hg hgen
              rcases Nat.eq_or_lt_of_le hgen with rfl | hlt
              · exact Bool.eq_false_iff.mpr ht
              · exact ih5 g hg hlt
            · intro s hs
              rcases List.mem_cons.mp hs with rfl | hss
              · omega
              · exact ih6 s hss
            · rw [List.mem_cons]
              constructor
              · rintro (h50 | hmem)
                · omega
                · exact ih7.mp hmem
              · intro hss
                exact Or.inr (ih7.mpr hss)

/-- C5: the evolution loop always halts — it executes at most the
generation cap (1000) of iterations; it never runs an iteration once the
wall-clock budget oracle has expired; the stagnation counter never exceeds
the cap (50) and hits it exactly when the loop terminates by stagnation;
and the population holds exactly `population_size` (50) candidates at exit
and at every generation boundary. -/
theorem evolution_loop_bounded (timeUp : ℕ → Bool)
    (child : ℕ → ℕ → ScoreState) (sinkOk : ℕ → Bool)
    (population : List ScoreState)
    (hsize : population.length = population_size) :
    (evolve timeUp child sinkOk population).gens ≤ generations ∧
    (evolve timeUp child sinkOk population).pop.length = population_size ∧
    (∀ s ∈ (evolve timeUp child sinkOk population).sizes,
      s = population_size) ∧
    (∀ g, g < (evolve timeUp child sinkOk population).gens →
      timeUp g = false) ∧
    (∀ s ∈ (evolve timeUp child sinkOk population).stags,
      s ≤ max_generations_without_improvement) ∧
    (max_generations_without_improvement ∈
        (evolve timeUp child sinkOk population).stags ↔
      (evolve timeUp child sinkOk population).stagStop = true) := by
  obtain ⟨h1, h2, h3, h4, h5, h6, h7⟩ :=
    evolveAux_invariants timeUp child sinkOk generations 0 population
      (((population.head?).map ScoreState.score).getD 0) 0 hsize (by decide)
  exact ⟨by simpa using h2, h3, h4, fun g hg => h5 g hg (Nat.zero_le g),
    h6, h7⟩

/-- Witness for C5: a 50-candidate population with a never-expiring clock
and constant children. -/
theorem evolution_loop_bounded_witness :
    (List.replicate 50 ({ assignments := [], score := 0 } : ScoreState)).length
      = population_size ∧
    (evolve (fun _ => false)
        (fun _ _ => { assignments := [], score := 0 })
        (fun _ => true)
        (List.replicate 50 { assignments := [], score := 0 })).gens ≤
      generations :=
  ⟨by simp [population_size],
   (evolution_loop_bounded (fun _ => false)
      (fun _ _ => { assignments := [], score := 0 }) (fun _ => true)
      (List.replicate 50 { assignments := [], score := 0 })
      (by simp [population_size])).1⟩

/-- The message trace the progress sink must receive, in the claim's terms:
one `progressMsg` per entered generation carrying consecutive generation
indices and that generation's best score, and, exactly when the stagnation
cap triggered termination, one final `stagnationMsg`. -/
def expectedMsgs : ℕ → List ℚ → Bool → List String
  | _, [], stagStop => if stagStop then [stagnationMsg] else []
  | g, b :: rest, stagStop =>
      progressMsg (g + 1) b :: expectedMsgs (g + 1) rest stagStop

/-- Messages and sink-independence of `evolveAux`, by induction on fuel. -/
theorem progress_channel (timeUp : ℕ → Bool) (child : ℕ → ℕ → ScoreState)
    (sinkOk sinkOk2 : ℕ → Bool) (fuel gen : ℕ) (pop : List ScoreState)
    (best : ℚ) (stag : ℕ) :
    (evolveAux timeUp child sinkOk fuel gen pop best stag).msgs =
      expectedMsgs gen
        (evolveAux timeUp child sinkOk fuel gen pop best stag).bests
        (evolveAux timeUp child sinkOk fuel gen pop best stag).stagStop ∧
    evolveAux timeUp child sinkOk fuel gen pop best stag =
      evolveAux timeUp child sinkOk2 fuel gen pop best stag := by
  induction fuel generalizing gen pop best stag with
  | zero => exact ⟨rfl, rfl⟩
  | succ fuel ih =>
      rw [evolveAux, evolveAux]
      by_cases ht : timeUp gen = true
      · rw [if_pos ht, if_pos ht]
        exact ⟨rfl, rfl⟩
      · rw [if_neg ht, if_neg ht]
        dsimp only
        set cur := ((sortDesc pop).head?.map ScoreState.score).getD 0 with hcur
        by_cases himp : cur > best
        · simp only [if_pos himp,
            if_neg (by decide : ¬ ((0:ℕ) ≥ max_generations_without_improvement))]
          obtain ⟨ihm, ihs⟩ :=
            ih (gen + 1) (nextPopulation (sortDesc pop) (child gen)) cur 0
          rw [expectedMsgs]
          exact ⟨by rw [ihm], by rw [ihs]⟩
        · simp only [if_neg himp]
          by_cases hsg : stag + 1 ≥ max_generations_without_improvement
          · simp only [if_pos hsg]
            exact ⟨by simp [expectedMsgs], trivial⟩
          · simp only [if_neg hsg]
            obtain ⟨ihm, ihs⟩ :=
              ih (gen + 1) (nextPopulation (sortDesc pop) (child gen)) best
                (stag + 1)
            rw [expectedMsgs]
            exact ⟨by rw [ihm], by rw [ihs]⟩

/-- C8: over a whole run, the progress sink is invoked exactly once per
generation with exactly the string `"Generation {n}: Best Score {score}"`
(`n` the 1-based generation index, the score rendered to two decimals), plus
— only when termination is triggered by the stagnation cap — one additional
message describing the termination; and the sink's outcome is discarded:
runs with any two outcome oracles produce identical results, so a delivery
failure never aborts or alters the search. -/
theorem progress_sink_contract (timeUp : ℕ → Bool)
    (child : ℕ → ℕ → ScoreState) (sinkOk sinkOk2 : ℕ → Bool)
    (population : List ScoreState) :
    (evolve timeUp child sinkOk population).msgs =
      expectedMsgs 0 (evolve timeUp child sinkOk population).bests
        (evolve timeUp child sinkOk population).stagStop ∧
    evolve timeUp child sinkOk population =
      evolve timeUp child sinkOk2 population :=
  progress_channel timeUp child sinkOk sinkOk2 generations 0 population
    (((population.head?).map ScoreState.score).getD 0) 0

/-! ### Claim C7: randomness plumbing of the initializer -/

/-- `SolverState` (solver/mod.rs lines 60-66) in full: per-resource
committed-interval maps (total functions here; the modelled operations only
read keys of existing resources), the assignment list and the cached
score. -/
structure SolverState where
  driver_schedules : String → List Interval
  vehicle_schedules : String → List Interval
  assignments : List Assignment
  score : ℚ

/-- `SolverState::new` (solver/mod.rs lines 69-84): every committed list
starts empty. -/
def SolverState.new : SolverState :=
  { driver_schedules := fun _ => [], vehicle_schedules := fun _ => [],
    assignments := [], score := 0 }

/-- `assign_order` (solver/mod.rs lines 86-114): push the order's interval
onto the driver's and the vehicle's committed lists, append the
`Assignment`, increment the cached score. -/
def assign_order (priority_map : String → Option ℕ) (st : SolverState)
    (order : Order) (driver : Driver) (vehicle : Vehicle) : SolverState :=
  { driver_schedules := fun k =>
      if k = driver.id
      then st.driver_schedules k ++ [(order.start_time, order.end_time)]
      else st.driver_schedules k,
    vehicle_schedules := fun k =>
      if k = vehicle.id
      then st.vehicle_schedules k ++ [(order.start_time, order.end_time)]
      else st.vehicle_schedules k,
    assignments := st.assignments ++
      [{ order_id := order.id, driver_id := driver.id,
         vehicle_id := vehicle.id }],
    score := st.score + assignment_weight priority_map order driver vehicle }

/-- The feasible-pair enumeration of `initialize_random_state`
(solver/mod.rs lines 292-317; the crossover and mutation repair passes use
the identical loop): for each driver passing `can_assign_driver`, each
vehicle passing both `can_assign_vehicle` and the (redundant, but preserved)
joint `can_assign` re-check. -/
def possible_assignments (drivers : List Driver) (vehicles : List Vehicle)
    (st : SolverState) (order : Order) (gap : Int) :
    List (Driver × Vehicle) :=
  drivers.flatMap fun driver =>
    if can_assign_driver order driver (st.driver_schedules driver.id) gap then
      vehicles.filterMap fun vehicle =>
        if can_assign_vehicle order vehicle
            (st.vehicle_schedules vehicle.id) gap &&
           can_assign order driver vehicle (st.driver_schedules driver.id)
            (st.vehicle_schedules vehicle.id) gap
        then some (driver, vehicle) else none
    else []

/-- `possible_assignments.choose(&mut rng).unwrap()` (solver/mod.rs lines
319-322): `choose` returns `None` exactly on an empty list and otherwise a
uniformly random element — the oracle index `pick` is reduced mod the
length. -/
def choose_pair : List (Driver × Vehicle) → ℕ → Option (Driver × Vehicle)
  | [], _ => none
  | p :: ps, pick =>
      some ((p :: ps).get ⟨pick % (ps.length + 1), Nat.mod_lt _ (Nat.succ_pos _)⟩)

/-- The body of the per-order loop of `initialize_random_state`
(solver/mod.rs lines 291-323): enumerate the feasible pairs and, if any,
commit a chosen one. -/
def init_step (drivers : List Driver) (vehicles : List Vehicle)
    (priority_map : String → Option ℕ) (gap : Int) (pick : ℕ)
    (st : SolverState) (order : Order) : SolverState :=
  match choose_pair (possible_assignments drivers vehicles st order gap) pick with
  | some (driver, vehicle) => assign_order priority_map st order driver vehicle
  | none => st

/-- `initialize_random_state` (solver/mod.rs lines 279-327).  The Rust
function draws all its randomness from `rand::thread_rng()` created
internally at line 287; its two effects — the `orders_shuffled.shuffle` and
each `possible_assignments.choose` — are surfaced here as the oracle
parameters `shuffled` and `pick`.  The final score is recomputed from
scratch (line 325); `getD 0` stands for the impossible `unwrap` panic (every
committed driver is drawn from `drivers`). -/
def initialize_random_state (drivers : List Driver) (vehicles : List Vehicle)
    (shuffled : List Order) (priority_map : String → Option ℕ) (gap : Int)
    (pick : ℕ → ℕ) : SolverState :=
  let st := shuffled.enum.foldl
    (fun st ko => init_step drivers vehicles priority_map gap (pick ko.1) st ko.2)
    SolverState.new
  { st with score := (calculate_score priority_map drivers st.assignments).getD 0 }

/-- A driver, vehicle and two orders sharing one time window, used to
exhibit the initializer's dependence on its internal entropy. -/
def d1 : Driver := { id := "d1", breaks := none, preference := none }
def v1 : Vehicle := { id := "v1", tags := none, max_weight := 100, max_volume := none }
def o1 : Order :=
  { id := "o1", start_time := 0, end_time := 3600000,
    priority := none, tags := none, weight := 1, volume := none }
def o2 : Order :=
  { id := "o2", start_time := 0, end_time := 3600000,
    priority := none, tags := none, weight := 1, volume := none }

/-- C7, evaluated at the failing input: the two assignment-capable orders
`o1`, `o2` share one window, so whichever the shuffle places first wins the
single feasible slot.  Two runs on the same input collections whose oracle
streams differ only in the shuffle produce different outputs.  In the
source, this stream is `rand::thread_rng()` created inside
`initialize_random_state` (line 287) and `select_parent` (line 333) — an
implicit thread-local generator with no seed parameter — so no "same seed"
can make the two runs coincide, contradicting the claimed explicitly
threaded, reproducible per-invocation stream. -/
theorem initializer_depends_on_implicit_stream :
    ([o2, o1] : List Order).Perm [o1, o2] ∧
    (initialize_random_state [d1] [v1] [o1, o2] (fun _ => none)
        mandatory_break_ms (fun _ => 0)).assignments ≠
      (initialize_random_state [d1] [v1] [o2, o1] (fun _ => none)
        mandatory_break_ms (fun _ => 0)).assignments :=
  ⟨List.Perm.swap o1 o2 [], by decide⟩

end CSW
